import Mathlib

/-!
Shallow embedding of the CDP (Conditional DePhase / Differential Manchester)
transcoder from `src/cdp.cpp` (class `CDP`), together with proofs of the
specification's testable properties.

Modelling conventions:
* Bytes and signal levels are `Nat`; machine `size_t` products are reduced
  modulo `2 ^ 64` (LP64 `size_t`) exactly where the C source can overflow.
* A buffer is a `List Nat`; `data_out[i] = v` becomes `store`, which yields
  `none` when the index is out of bounds (an out-of-bounds access in the C
  source is undefined behavior, so the model aborts with `none` there).
* The in-place mutated `current_signal_level` pointer parameter is threaded
  explicitly: each operation returns its result paired with the new level.
* The C `for` loops become structural recursion on the number of remaining
  iterations, reading the input buffer through fallible indexing `l[i]?`.
-/

namespace CDP

/-- Modulus of LP64 `size_t` arithmetic (`w = 64`). -/
def SIZE_T_MOD : Nat := 2 ^ 64

/-- `LOGIC_LEVEL_LOW` from cdp.cpp. -/
def LOGIC_LEVEL_LOW : Nat := 0

/-- `LOGIC_LEVEL_HIGH` from cdp.cpp. -/
def LOGIC_LEVEL_HIGH : Nat := 1

/-- `INITIAL_SIGNAL_LEVEL` from cdp.cpp: every encode/decode call starts HIGH. -/
def INITIAL_SIGNAL_LEVEL : Nat := LOGIC_LEVEL_HIGH

/-- `GET_BIT(data, bit_n)` from cdp.cpp: `(data >> bit_n) & 0x01`. -/
def GET_BIT (data bit_n : Nat) : Nat := (data >>> bit_n) &&& 1

/-- `CDP::encode_bit`: given the data bit and the current signal level,
return the 2-bit symbol together with the updated signal level.
If `data_bit == *current_signal_level` the symbol is `0b10` and the level
becomes LOW, otherwise the symbol is `0b01` and the level becomes HIGH. -/
def encode_bit (data_bit lvl : Nat) : Nat × Nat :=
  if data_bit = lvl then (0b10, LOGIC_LEVEL_LOW) else (0b01, LOGIC_LEVEL_HIGH)

/-- One iteration of the loop in `CDP::encode_byte`.  The state is
`(encoded_byte, encode_bit_i, current_signal_level)`; `i` is the loop index. -/
def encodeByteStep (data_byte : Nat) (st : Nat × Nat × Nat) (i : Nat) : Nat × Nat × Nat :=
  let acc := st.1
  let pos := st.2.1
  let lvl := st.2.2
  let r := encode_bit (GET_BIT data_byte i) lvl
  let acc' := (acc ||| (GET_BIT r.1 1 <<< pos)) ||| (GET_BIT r.1 0 <<< (pos + 1))
  let pos' := if pos + 2 ≥ 16 then 0 else pos + 2
  (acc', pos', r.2)

/-- `CDP::encode_byte`: 16-bit encoded unit and final signal level.
`encode_bit_i` starts at 8, advances by 2 and wraps from 16 back to 0. -/
def encode_byte (data_byte lvl : Nat) : Nat × Nat :=
  let st := (List.range 8).foldl (encodeByteStep data_byte) (0, 8, lvl)
  (st.1, st.2.2)

/-- `CDP::decode_bit`: a `0b10` symbol decodes to the current level and sets
the level LOW; any other symbol is handled by the `else` branch exactly like
`0b01`, decoding to the complement of the current level and setting it HIGH. -/
def decode_bit (data_bit lvl : Nat) : Nat × Nat :=
  if data_bit = 0b10 then (lvl, LOGIC_LEVEL_LOW)
  else (if lvl = 0 then 1 else 0, LOGIC_LEVEL_HIGH)

/-- One iteration of either loop of `CDP::decode_byte`.  The state is
`(decoded_byte, decode_bit_i, current_signal_level)`; `i` is the position of
the 2-bit symbol inside the 16-bit unit. -/
def decodeByteStep (u : Nat) (st : Nat × Nat × Nat) (i : Nat) : Nat × Nat × Nat :=
  let acc := st.1
  let dbi := st.2.1
  let lvl := st.2.2
  let sym := GET_BIT u (i + 1) ||| (GET_BIT u i <<< 1)
  let r := decode_bit sym lvl
  (acc ||| (r.1 <<< dbi), dbi + 1, r.2)

/-- `CDP::decode_byte`: first loop over symbol positions 8,10,12,14 (MSB byte),
then over 0,2,4,6 (LSB byte); returns the decoded byte and the final level. -/
def decode_byte (u lvl : Nat) : Nat × Nat :=
  let st1 := [8, 10, 12, 14].foldl (decodeByteStep u) (0, 0, lvl)
  let st2 := [0, 2, 4, 6].foldl (decodeByteStep u) st1
  (st2.1, st2.2.2)

/-- Model of `buf[i] = v` on a buffer: `none` on an out-of-bounds write
(undefined behavior in the C source). -/
def store (l : List Nat) (i v : Nat) : Option (List Nat) :=
  if i < l.length then some (l.set i v) else none

/-- Loop of `CDP::encode` (`for(size_t i = 0; i < data_in_len; i++)`);
the first argument of the recursion is the number of remaining iterations
(`data_in_len - i`), `i` the loop index, `ebi` the `encode_byte_i` output
index and `lvl` the current signal level. -/
def encodeLoop (din : List Nat) : Nat → Nat → Nat → Nat → List Nat → Option (List Nat)
  | 0, _, _, _, dout => some dout
  | fuel + 1, i, ebi, lvl, dout =>
    match din[i]? with
    | none => none
    | some b =>
      (store dout ebi (((encode_byte b lvl).1 >>> 8) &&& 0xff)).bind fun d1 =>
        (store d1 (ebi + 1) ((encode_byte b lvl).1 &&& 0xff)).bind fun d2 =>
          encodeLoop din fuel (i + 1) (ebi + 2) (encode_byte b lvl).2 d2

/-- `CDP::encode`: returns `some (ok, final_output_buffer)`, or `none` when the
call runs into undefined behavior (a buffer access out of bounds).  The
capacity guard `data_in_len*2 > data_out_len` multiplies in `size_t`, hence
the reduction modulo `SIZE_T_MOD`. -/
def encode (din : List Nat) (din_len : Nat) (dout : List Nat) (dout_len : Nat) :
    Option (Bool × List Nat) :=
  if din_len * 2 % SIZE_T_MOD > dout_len then some (false, dout)
  else (encodeLoop din din_len 0 0 INITIAL_SIGNAL_LEVEL dout).map (fun d => (true, d))

/-- Loop of `CDP::decode` (`for(size_t i = 0; i < data_in_len; i = i + 2)`);
the first argument is the number of remaining iterations, `i` the input index
(stepping by 2), `dbi` the `decode_byte_i` output index.  Each iteration
reads `data_in[i]` and `data_in[i+1]`; a read past the end of the input is
undefined behavior, modelled as `none`. -/
def decodeLoop (din : List Nat) : Nat → Nat → Nat → Nat → List Nat → Option (List Nat)
  | 0, _, _, _, dout => some dout
  | fuel + 1, i, dbi, lvl, dout =>
    match din[i]?, din[i + 1]? with
    | some hi, some lo =>
      (store dout dbi (decode_byte ((hi <<< 8) ||| lo) lvl).1).bind fun d1 =>
        decodeLoop din fuel (i + 2) (dbi + 1) (decode_byte ((hi <<< 8) ||| lo) lvl).2 d1
    | _, _ => none

/-- `CDP::decode`: the guard `data_out_len*2 < data_in_len` multiplies in
`size_t`; the loop runs `⌈data_in_len / 2⌉` iterations (`i = 0, 2, ...`,
condition `i < data_in_len`). -/
def decode (din : List Nat) (din_len : Nat) (dout : List Nat) (dout_len : Nat) :
    Option (Bool × List Nat) :=
  if dout_len * 2 % SIZE_T_MOD < din_len then some (false, dout)
  else (decodeLoop din ((din_len + 1) / 2) 0 0 INITIAL_SIGNAL_LEVEL dout).map
    (fun d => (true, d))

/-- Packing of one byte as the specification words it: the symbol of raw bit
`k` occupies the encoded-bit pair starting at position `(8 + 2*k) % 16`, with
the first bit of the 2-bit symbol value at the lower position of the pair and
its second bit at the higher position. -/
def packSpec (b l0 : Nat) : Nat :=
  ((List.range 8).foldl (fun (st : Nat × Nat) k =>
      let r := encode_bit (GET_BIT b k) st.2
      let pos := (8 + 2 * k) % 16
      ((st.1 ||| (GET_BIT r.1 1 <<< pos)) ||| (GET_BIT r.1 0 <<< (pos + 1)), r.2))
    (0, l0)).1

/-- Sequential write of a list of values starting at index `i`;
fails exactly when one of the writes is out of bounds. -/
def writeList : List Nat → Nat → List Nat → Option (List Nat)
  | l, _, [] => some l
  | l, i, x :: xs => (store l i x).bind fun l2 => writeList l2 (i + 1) xs

/-- Byte stream produced by encoding a list of bytes from a given level:
for each input byte, the high then the low half of its 16-bit encoded unit. -/
def encBytes : List Nat → Nat → List Nat
  | [], _ => []
  | b :: rest, lvl =>
    (((encode_byte b lvl).1 >>> 8) &&& 0xff) :: ((encode_byte b lvl).1 &&& 0xff) ::
      encBytes rest (encode_byte b lvl).2

/-- Byte stream produced by decoding consecutive pairs of a list from a given
level; a trailing unpaired byte contributes nothing. -/
def decBytes : List Nat → Nat → List Nat
  | hi :: lo :: rest, lvl =>
    (decode_byte ((hi <<< 8) ||| lo) lvl).1 ::
      decBytes rest (decode_byte ((hi <<< 8) ||| lo) lvl).2
  | _, _ => []

/-! ### Helper lemmas -/

set_option maxRecDepth 10000 in
/-- Encoding one byte and reassembling its two output bytes, then decoding,
recovers the byte and the level produced by the encoder; the resulting level
is again a logic level.  Checked exhaustively over all 256 bytes and both
levels. -/
theorem encode_decode_byte : ∀ b, b < 256 → ∀ l, l < 2 →
    decode_byte (((((encode_byte b l).1 >>> 8) &&& 0xff) <<< 8) |||
        ((encode_byte b l).1 &&& 0xff)) l = (b, (encode_byte b l).2) ∧
      (encode_byte b l).2 < 2 := by
  decide

/-- Each input byte contributes exactly two encoded bytes. -/
theorem encBytes_length (b : List Nat) : ∀ lvl, (encBytes b lvl).length = 2 * b.length := by
  induction b with
  | nil => intro lvl; rfl
  | cons x rest ih =>
    intro lvl
    simp only [encBytes, List.length_cons, ih, List.length]
    omega

/-- Each consecutive input pair contributes one decoded byte; a trailing
unpaired byte contributes nothing. -/
theorem decBytes_length_aux :
    ∀ (n : Nat) (l : List Nat) (lvl : Nat), l.length ≤ n →
      (decBytes l lvl).length = l.length / 2 := by
  intro n
  induction n with
  | zero =>
    intro l lvl h
    have : l = [] := List.eq_nil_of_length_eq_zero (Nat.le_zero.mp h)
    subst this; rfl
  | succ n ih =>
    intro l lvl h
    match l with
    | [] => rfl
    | [x] => simp [decBytes]
    | x :: y :: t =>
      simp only [decBytes, List.length_cons]
      have ht : t.length ≤ n := by simp at h; omega
      rw [ih t _ ht]
      omega

/-- Length of `decBytes`. -/
theorem decBytes_length (l : List Nat) (lvl : Nat) :
    (decBytes l lvl).length = l.length / 2 :=
  decBytes_length_aux l.length l lvl le_rfl

/-- List-level round trip: decoding the encoded byte stream from the same
starting level recovers the original bytes. -/
theorem decBytes_encBytes (b : List Nat) : ∀ lvl, (∀ x ∈ b, x < 256) → lvl < 2 →
    decBytes (encBytes b lvl) lvl = b := by
  induction b with
  | nil => intro lvl _ _; rfl
  | cons x rest ih =>
    intro lvl hb hl
    have hx : x < 256 := hb x (by simp)
    have h := encode_decode_byte x hx lvl hl
    simp only [encBytes, decBytes, h.1]
    exact congrArg (x :: ·) (ih (encode_byte x lvl).2 (fun y hy => hb y (by simp [hy])) h.2)

/-- Taking one element past an in-bounds `set` splits off the written value. -/
theorem take_succ_set (x : Nat) : ∀ (l : List Nat) (i : Nat), i < l.length →
    (l.set i x).take (i + 1) = l.take i ++ [x] := by
  intro l
  induction l with
  | nil => intro i hi; simp at hi
  | cons a t ih =>
    intro i hi
    match i with
    | 0 => simp
    | j + 1 =>
      simp only [List.set_cons_succ, List.take_succ_cons, List.cons_append]
      exact congrArg (a :: ·) (ih j (by simp at hi; omega))

/-- Successful sequential writes overwrite the slice starting at `i`. -/
theorem writeList_eq (xs : List Nat) : ∀ (l : List Nat) (i : Nat),
    i + xs.length ≤ l.length →
    writeList l i xs = some (l.take i ++ xs ++ l.drop (i + xs.length)) := by
  induction xs with
  | nil =>
    intro l i h
    simp [writeList]
  | cons x xs ih =>
    intro l i h
    have hi : i < l.length := by simp at h; omega
    simp only [writeList, store, if_pos hi, Option.some_bind]
    rw [ih (l.set i x) (i + 1) (by simp only [List.length_set]; simp at h; omega)]
    rw [take_succ_set x l i hi, List.drop_set_of_lt x l (by omega)]
    have h5 : i + 1 + xs.length = i + (x :: xs).length := by simp; omega
    rw [h5]
    simp [List.append_assoc]

/-- The encode loop is the sequential write of the encoded byte stream of the
next `fuel` input bytes, starting at output index `ebi`. -/
theorem encodeLoop_eq (din : List Nat) (fuel : Nat) :
    ∀ (i ebi lvl : Nat) (dout : List Nat), i + fuel ≤ din.length →
      encodeLoop din fuel i ebi lvl dout =
        writeList dout ebi (encBytes ((din.drop i).take fuel) lvl) := by
  induction fuel with
  | zero =>
    intro i ebi lvl dout _
    simp [encodeLoop, encBytes, writeList]
  | succ n ih =>
    intro i ebi lvl dout h
    have hi : i < din.length := by omega
    have hdrop : din.drop i = din[i] :: din.drop (i + 1) := List.drop_eq_getElem_cons hi
    rw [hdrop, List.take_succ_cons]
    simp only [encodeLoop, List.getElem?_eq_getElem hi, encBytes, writeList]
    cases h1 : store dout ebi (((encode_byte din[i] lvl).1 >>> 8) &&& 0xff) with
    | none => rfl
    | some d1 =>
      simp only [Option.some_bind]
      cases h2 : store d1 (ebi + 1) ((encode_byte din[i] lvl).1 &&& 0xff) with
      | none => rfl
      | some d2 =>
        simp only [Option.some_bind]
        exact ih (i + 1) (ebi + 2) (encode_byte din[i] lvl).2 d2 (by omega)

/-- The decode loop is the sequential write of the decoded byte stream of the
next `2 * fuel` input bytes, starting at output index `dbi`. -/
theorem decodeLoop_eq (din : List Nat) (fuel : Nat) :
    ∀ (i dbi lvl : Nat) (dout : List Nat), i + 2 * fuel ≤ din.length →
      decodeLoop din fuel i dbi lvl dout =
        writeList dout dbi (decBytes ((din.drop i).take (2 * fuel)) lvl) := by
  induction fuel with
  | zero =>
    intro i dbi lvl dout _
    simp [decodeLoop, decBytes, writeList]
  | succ n ih =>
    intro i dbi lvl dout h
    have hi : i < din.length := by omega
    have hi1 : i + 1 < din.length := by omega
    have hdrop : din.drop i = din[i] :: din[i + 1] :: din.drop (i + 2) := by
      rw [List.drop_eq_getElem_cons hi, List.drop_eq_getElem_cons hi1]
    have htake : 2 * (n + 1) = 2 * n + 1 + 1 := by omega
    rw [hdrop, htake, List.take_succ_cons, List.take_succ_cons]
    simp only [decodeLoop, List.getElem?_eq_getElem hi, List.getElem?_eq_getElem hi1,
      decBytes, writeList]
    cases h1 : store dout dbi (decode_byte ((din[i] <<< 8) ||| din[i + 1]) lvl).1 with
    | none => rfl
    | some d1 =>
      simp only [Option.some_bind]
      exact ih (i + 2) (dbi + 1) (decode_byte ((din[i] <<< 8) ||| din[i + 1]) lvl).2 d1
        (by omega)

/-- Successful honest `encode` call: the guard passes and the encoded stream
is written at the start of the output buffer, the rest left unchanged. -/
theorem encode_eq (din dout : List Nat) (dout_len : Nat)
    (hcap : 2 * din.length ≤ dout_len) (hlen : dout_len = dout.length) :
    encode din din.length dout dout_len =
      some (true, encBytes din INITIAL_SIGNAL_LEVEL ++ dout.drop (2 * din.length)) := by
  have hg : ¬ din.length * 2 % SIZE_T_MOD > dout_len := by
    have := Nat.mod_le (din.length * 2) SIZE_T_MOD
    omega
  rw [encode, if_neg hg]
  rw [encodeLoop_eq din din.length 0 0 INITIAL_SIGNAL_LEVEL dout (by omega)]
  rw [List.drop_zero, List.take_length]
  rw [writeList_eq _ dout 0 (by rw [encBytes_length]; omega)]
  simp [encBytes_length]

/-- Successful honest `decode` call on an even-length input whose claimed
output capacity does not overflow `size_t`: the decoded stream is written at
the start of the output buffer, the rest left unchanged. -/
theorem decode_eq (din dout : List Nat) (dout_len : Nat)
    (heven : din.length % 2 = 0)
    (hcap : din.length ≤ 2 * dout_len) (hlen : dout_len = dout.length)
    (hnof : dout_len < 2 ^ 63) :
    decode din din.length dout dout_len =
      some (true, decBytes din INITIAL_SIGNAL_LEVEL ++ dout.drop (din.length / 2)) := by
  have hp : (2 : Nat) ^ 63 * 2 = 2 ^ 64 := by norm_num
  have hg : ¬ dout_len * 2 % SIZE_T_MOD < din.length := by
    have hm : dout_len * 2 % SIZE_T_MOD = dout_len * 2 := by
      apply Nat.mod_eq_of_lt
      simp only [SIZE_T_MOD]
      omega
    omega
  rw [decode, if_neg hg]
  have hfuel : (din.length + 1) / 2 = din.length / 2 := by omega
  rw [hfuel]
  rw [decodeLoop_eq din (din.length / 2) 0 0 INITIAL_SIGNAL_LEVEL dout (by omega)]
  have h2 : 2 * (din.length / 2) = din.length := by omega
  rw [List.drop_zero, h2, List.take_length]
  rw [writeList_eq _ dout 0 (by rw [decBytes_length]; omega)]
  simp [decBytes_length]

/-! ### Claim theorems -/

/-- C2: bit-rule correctness table.  `encode_bit` with level HIGH(1) maps data
bit 1 to symbol `10` with new level LOW and data bit 0 to symbol `01` with new
level HIGH; with level LOW(0) it maps bit 0 to `10` (new level LOW) and bit 1
to `01` (new level HIGH); `decode_bit` inverts each of the four cases,
recovering the data bit and producing the same new level. -/
theorem claim_C2_bit_rule_table :
    encode_bit 1 1 = (0b10, 0) ∧ encode_bit 0 1 = (0b01, 1) ∧
    encode_bit 0 0 = (0b10, 0) ∧ encode_bit 1 0 = (0b01, 1) ∧
    decode_bit 0b10 1 = (1, 0) ∧ decode_bit 0b01 1 = (0, 1) ∧
    decode_bit 0b10 0 = (0, 0) ∧ decode_bit 0b01 0 = (1, 1) := by
  decide

/-- C7: for both current signal levels, `decode_bit` on the invalid symbols
`00` and `11` returns exactly what it returns on the symbol `01`: the raw bit
is the complement of the current level and the new level is HIGH; no invalid
symbol is detected or reported. -/
theorem claim_C7_invalid_symbols_decode_as_01 :
    (decode_bit 0b00 1 = decode_bit 0b01 1 ∧ decode_bit 0b11 1 = decode_bit 0b01 1 ∧
      decode_bit 0b01 1 = (0, 1)) ∧
    (decode_bit 0b00 0 = decode_bit 0b01 0 ∧ decode_bit 0b11 0 = decode_bit 0b01 0 ∧
      decode_bit 0b01 0 = (1, 1)) := by
  decide

/-- C9: with `input_len = 0`, both `encode` and `decode` return true and leave
the output buffer entirely unchanged, for every output buffer and capacity. -/
theorem claim_C9_zero_length_buffers (din dout : List Nat) (dout_len : Nat) :
    encode din 0 dout dout_len = some (true, dout) ∧
    decode din 0 dout dout_len = some (true, dout) := by
  constructor
  · rw [encode, if_neg (by simp)]
    rfl
  · rw [decode, if_neg (by omega)]
    rfl

/-- C8: cross-byte level continuity.  Encoding the 2-byte buffer `[b0, b1]`
produces exactly the 4 bytes obtained by calling `encode_byte` on `b0` with
initial level HIGH, then `encode_byte` on `b1` with the ending level of the
first call, splitting each 16-bit result big-endian. -/
theorem claim_C8_cross_byte_level_continuity (b0 b1 d0 d1 d2 d3 : Nat) :
    encode [b0, b1] 2 [d0, d1, d2, d3] 4 =
      some (true,
        [((encode_byte b0 INITIAL_SIGNAL_LEVEL).1 >>> 8) &&& 0xff,
         (encode_byte b0 INITIAL_SIGNAL_LEVEL).1 &&& 0xff,
         ((encode_byte b1 (encode_byte b0 INITIAL_SIGNAL_LEVEL).2).1 >>> 8) &&& 0xff,
         (encode_byte b1 (encode_byte b0 INITIAL_SIGNAL_LEVEL).2).1 &&& 0xff]) := by
  rfl

/-- C6: evaluation at the failing input.  Decoding the 1-byte input `[0x00]`
(odd `input_len = 1`, output capacity 1, guard passed) does not drop the
trailing byte: the loop body runs at `i = 0` and reads `data_in[1]`, one past
the end of the input buffer; the model reports the out-of-bounds read as
`none`.  The same happens for any odd length, e.g. 3. -/
theorem claim_C6_odd_decode_reads_past_end :
    decode [0] 1 [0] 1 = none ∧ decode [170, 170, 7] 3 [0, 0] 2 = none := by
  decide

/-- C10: the capacity guards multiply in `size_t` (modulo `2^64`).  With
`input_len = 2^63` (which is `≥ 2^(w-1)` for `w = 64`) and output capacity 0
(mathematically smaller than `2*input_len`), encode's guard does not return
false, because `2^63 * 2` wraps to 0.  Dually, with output capacity `2^63`
and `input_len = 1` (so `2*capacity ≥ input_len` mathematically), decode's
guard returns false. -/
theorem claim_C10_size_t_wraparound :
    (2 ^ (64 - 1) ≤ (List.replicate (2 ^ 63) 0 : List Nat).length ∧
      (0 : Nat) < 2 * (List.replicate (2 ^ 63) 0 : List Nat).length ∧
      ∀ dout : List Nat,
        encode (List.replicate (2 ^ 63) 0) (2 ^ 63) dout 0 ≠ some (false, dout)) ∧
    (2 ^ (64 - 1) ≤ (2 ^ 63 : Nat) ∧ (1 : Nat) ≤ 2 * 2 ^ 63 ∧
      ∀ din dout : List Nat, decode din 1 dout (2 ^ 63) = some (false, dout)) := by
  have hw : (2 : Nat) ^ 63 * 2 % SIZE_T_MOD = 0 := by norm_num [SIZE_T_MOD]
  refine ⟨⟨by rw [List.length_replicate], by rw [List.length_replicate]; norm_num, ?_⟩,
    ⟨le_rfl, by norm_num, ?_⟩⟩
  · intro dout
    rw [encode, if_neg (by omega)]
    cases encodeLoop (List.replicate (2 ^ 63) 0) (2 ^ 63) 0 0 INITIAL_SIGNAL_LEVEL dout with
    | none => simp
    | some d => simp
  · intro din dout
    rw [decode, if_pos (by omega)]

/-- C4 counterexample: with `input_len = 2^63` and output capacity 0 the
capacity `0` is mathematically smaller than `2*input_len`, yet encode does not
return false with the buffer untouched — the wrapped guard `2^63 * 2 = 0 > 0`
fails and the call falls through to the write loop. -/
theorem claim_C4_counterexample :
    (0 : Nat) < 2 * (List.replicate (2 ^ 63) 0 : List Nat).length ∧
    (2 ^ 63 : Nat) = (List.replicate (2 ^ 63) 0 : List Nat).length ∧
    encode (List.replicate (2 ^ 63) 0) (2 ^ 63) [] 0 ≠ some (false, []) := by
  have hw : (2 : Nat) ^ 63 * 2 % SIZE_T_MOD = 0 := by norm_num [SIZE_T_MOD]
  refine ⟨by rw [List.length_replicate]; norm_num, by rw [List.length_replicate], ?_⟩
  rw [encode, if_neg (by omega)]
  cases encodeLoop (List.replicate (2 ^ 63) 0) (2 ^ 63) 0 0 INITIAL_SIGNAL_LEVEL [] with
  | none => simp
  | some d => simp

/-- C4 (amended): provided `input_len < 2^63`, so that `input_len * 2` does
not wrap in `size_t`, encode returns false and writes nothing exactly when
the output capacity is smaller than twice the input length, and otherwise
returns true, having written the encoded stream. -/
theorem claim_C4_encode_capacity_rejection (din dout : List Nat) (din_len dout_len : Nat)
    (hin : din_len = din.length) (hout : dout_len = dout.length)
    (hnof : din_len < 2 ^ 63) :
    (dout_len < 2 * din_len → encode din din_len dout dout_len = some (false, dout)) ∧
    (2 * din_len ≤ dout_len →
      encode din din_len dout dout_len =
        some (true, encBytes din INITIAL_SIGNAL_LEVEL ++ dout.drop (2 * din_len))) := by
  have hp : (2 : Nat) ^ 63 * 2 = 2 ^ 64 := by norm_num
  constructor
  · intro hlt
    have hm : din_len * 2 % SIZE_T_MOD = din_len * 2 := by
      apply Nat.mod_eq_of_lt
      simp only [SIZE_T_MOD]
      omega
    rw [encode, if_pos (by omega)]
  · intro hge
    subst hin
    exact encode_eq din dout dout_len hge hout

/-- C4 witness: both branches of the amended capacity claim at concrete
inputs. -/
theorem claim_C4_encode_capacity_rejection_witness :
    encode [7] 1 [0] 1 = some (false, [0]) ∧
    encode [7] 1 [0, 0] 2 =
      some (true, encBytes [7] INITIAL_SIGNAL_LEVEL ++ [0, 0].drop 2) :=
  ⟨(claim_C4_encode_capacity_rejection [7] [0] 1 1 rfl rfl (by norm_num)).1 (by norm_num),
   (claim_C4_encode_capacity_rejection [7] [0, 0] 1 2 rfl rfl (by norm_num)).2 (by norm_num)⟩

/-- C5 counterexample: two failures of the claim as stated.  With output
capacity `2^63` and `input_len = 1`, `2 * capacity` is mathematically at least
`input_len`, yet decode returns false (the guard product wraps to 0).  With
`input_len = 3` and capacity 2 (so `2 * capacity ≥ input_len`), decode does
not return true either: the loop reads past the end of the odd-length input
(undefined behavior, modelled `none`). -/
theorem claim_C5_counterexample :
    ((1 : Nat) ≤ 2 * 2 ^ 63 ∧
      decode [0] 1 (List.replicate (2 ^ 63) 0) (2 ^ 63) =
        some (false, List.replicate (2 ^ 63) 0)) ∧
    ((3 : Nat) ≤ 2 * 2 ∧ decode [0, 0, 0] 3 [0, 0] 2 = none) := by
  have hw : (2 : Nat) ^ 63 * 2 % SIZE_T_MOD = 0 := by norm_num [SIZE_T_MOD]
  refine ⟨⟨by norm_num, ?_⟩, ⟨by norm_num, by decide⟩⟩
  rw [decode, if_pos (by omega)]

/-- C5 (amended): provided the output capacity is below `2^63` (no `size_t`
wrap in the guard product) and the lengths are honest, decode returns false
and writes nothing exactly when `2 * output_capacity < input_len`; for even
`input_len` within capacity it returns true, having written the
`input_len / 2` decoded bytes. -/
theorem claim_C5_decode_capacity_rejection (din dout : List Nat) (din_len dout_len : Nat)
    (hin : din_len = din.length) (hout : dout_len = dout.length)
    (hnof : dout_len < 2 ^ 63) :
    (2 * dout_len < din_len → decode din din_len dout dout_len = some (false, dout)) ∧
    (din_len % 2 = 0 → din_len ≤ 2 * dout_len →
      decode din din_len dout dout_len =
        some (true, decBytes din INITIAL_SIGNAL_LEVEL ++ dout.drop (din_len / 2))) := by
  have hp : (2 : Nat) ^ 63 * 2 = 2 ^ 64 := by norm_num
  constructor
  · intro hlt
    have hm : dout_len * 2 % SIZE_T_MOD = dout_len * 2 := by
      apply Nat.mod_eq_of_lt
      simp only [SIZE_T_MOD]
      omega
    rw [decode, if_pos (by omega)]
  · intro heven hge
    subst hin
    exact decode_eq din dout dout_len heven hge hout hnof

/-- C5 witness: both branches of the amended capacity claim at concrete
inputs. -/
theorem claim_C5_decode_capacity_rejection_witness :
    decode [0, 0, 0, 0] 4 [9] 1 = some (false, [9]) ∧
    decode [170, 170] 2 [9] 1 =
      some (true, decBytes [170, 170] INITIAL_SIGNAL_LEVEL ++ [9].drop 1) :=
  ⟨(claim_C5_decode_capacity_rejection [0, 0, 0, 0] [9] 4 1 rfl rfl (by norm_num)).1
      (by norm_num),
   (claim_C5_decode_capacity_rejection [170, 170] [9] 2 1 rfl rfl (by norm_num)).2
      (by norm_num) (by norm_num)⟩

set_option maxRecDepth 10000 in
/-- C3: byte-packing layout.  For every byte and starting level, the 16-bit
unit produced by `encode_byte` equals the spec-side packing `packSpec`, which
places the symbol for raw bit `k` (processed LSB first) at encoded-bit
positions `(8 + 2k) % 16` and `(8 + 2k) % 16 + 1` — bit 0 at positions 8,9,
bit 1 at 10,11, wrapping so bit 7 lands at 6,7 — with the first bit of the
2-bit symbol value at the lower position; and the buffer-level encode splits
the unit big-endian, the even-index output byte holding bits 8..15 and the
following byte bits 0..7. -/
theorem claim_C3_byte_packing_layout : ∀ b, b < 256 → ∀ l, l < 2 →
    (encode_byte b l).1 = packSpec b l ∧
    ∀ x y : Nat, encode [b] 1 [x, y] 2 =
      some (true, [packSpec b INITIAL_SIGNAL_LEVEL / 2 ^ 8 % 2 ^ 8,
        packSpec b INITIAL_SIGNAL_LEVEL % 2 ^ 8]) := by
  have key : ∀ b, b < 256 → ∀ l, l < 2 →
      (encode_byte b l).1 = packSpec b l ∧
      ((encode_byte b INITIAL_SIGNAL_LEVEL).1 >>> 8) &&& 0xff =
        packSpec b INITIAL_SIGNAL_LEVEL / 2 ^ 8 % 2 ^ 8 ∧
      (encode_byte b INITIAL_SIGNAL_LEVEL).1 &&& 0xff =
        packSpec b INITIAL_SIGNAL_LEVEL % 2 ^ 8 := by decide
  intro b hb l hl
  refine ⟨(key b hb l hl).1, ?_⟩
  intro x y
  have hu : encode [b] 1 [x, y] 2 =
      some (true, [((encode_byte b INITIAL_SIGNAL_LEVEL).1 >>> 8) &&& 0xff,
        (encode_byte b INITIAL_SIGNAL_LEVEL).1 &&& 0xff]) := rfl
  rw [hu, (key b hb l hl).2.1, (key b hb l hl).2.2]

/-- C3 witness: the packing layout at byte `0b01110100 = 116`, level HIGH. -/
theorem claim_C3_byte_packing_layout_witness :
    (encode_byte 116 1).1 = packSpec 116 1 ∧
    encode [116] 1 [3, 9] 2 =
      some (true, [packSpec 116 INITIAL_SIGNAL_LEVEL / 2 ^ 8 % 2 ^ 8,
        packSpec 116 INITIAL_SIGNAL_LEVEL % 2 ^ 8]) :=
  ⟨(claim_C3_byte_packing_layout 116 (by norm_num) 1 (by norm_num)).1,
   (claim_C3_byte_packing_layout 116 (by norm_num) 1 (by norm_num)).2 3 9⟩

/-- C1 counterexample: the round trip as universally stated fails for a decode
buffer of capacity `2^63 ≥ n`.  Encoding `[0]` succeeds, but decoding the two
encoded bytes into a buffer of capacity `2^63` returns false, because the
decode guard's `size_t` product `2^63 * 2` wraps to 0: the original byte is
not reproduced. -/
theorem claim_C1_counterexample :
    encode [0] 1 [0, 0] 2 = some (true, [170, 170]) ∧
    (1 : Nat) ≤ (List.replicate (2 ^ 63) 0 : List Nat).length ∧
    decode [170, 170] 2 (List.replicate (2 ^ 63) 0) (2 ^ 63) =
      some (false, List.replicate (2 ^ 63) 0) := by
  have hw : (2 : Nat) ^ 63 * 2 % SIZE_T_MOD = 0 := by norm_num [SIZE_T_MOD]
  refine ⟨by decide, by rw [List.length_replicate]; norm_num, ?_⟩
  rw [decode, if_pos (by omega)]

/-- C1 (amended): round-trip identity.  For every byte sequence `b` of length
`n`, encoding into a buffer of capacity at least `2n` succeeds, and decoding
the resulting `2n` encoded bytes into a buffer of capacity at least `n` — the
capacity being below `2^63` so the decode guard's `size_t` product does not
wrap — succeeds and reproduces `b` exactly; both calls start at level HIGH
(this is built into `encode` and `decode`).  It holds for `n = 0`, `n = 1`
and large `n` alike. -/
theorem claim_C1_roundtrip_identity (b eout dout : List Nat)
    (hb : ∀ x ∈ b, x < 256)
    (he : 2 * b.length ≤ eout.length)
    (hd : b.length ≤ dout.length)
    (hnof : dout.length < 2 ^ 63) :
    ∃ e d, encode b b.length eout eout.length = some (true, e) ∧
      decode (e.take (2 * b.length)) (2 * b.length) dout dout.length = some (true, d) ∧
      d.take b.length = b := by
  have hlen : (encBytes b INITIAL_SIGNAL_LEVEL).length = 2 * b.length := encBytes_length b _
  have henc := encode_eq b eout eout.length he rfl
  have htk : (encBytes b INITIAL_SIGNAL_LEVEL ++ eout.drop (2 * b.length)).take (2 * b.length) =
      encBytes b INITIAL_SIGNAL_LEVEL := by
    rw [← hlen, List.take_left]
  have hrt : decBytes (encBytes b INITIAL_SIGNAL_LEVEL) INITIAL_SIGNAL_LEVEL = b :=
    decBytes_encBytes b INITIAL_SIGNAL_LEVEL hb (by norm_num [INITIAL_SIGNAL_LEVEL, LOGIC_LEVEL_HIGH])
  have hdec := decode_eq (encBytes b INITIAL_SIGNAL_LEVEL) dout dout.length
    (by rw [hlen]; omega) (by rw [hlen]; omega) rfl hnof
  rw [hlen, hrt] at hdec
  refine ⟨encBytes b INITIAL_SIGNAL_LEVEL ++ eout.drop (2 * b.length),
    b ++ dout.drop (2 * b.length / 2), henc, ?_, ?_⟩
  · rw [htk]
    exact hdec
  · exact List.take_left b _

/-- C1 witness: round trip of the spec's known single-byte vector
`0b01110100 = 116` with exact-capacity buffers. -/
theorem claim_C1_roundtrip_identity_witness :
    ∃ e d, encode [116] 1 [0, 0] 2 = some (true, e) ∧
      decode (e.take 2) 2 [0] 1 = some (true, d) ∧ d.take 1 = [116] :=
  claim_C1_roundtrip_identity [116] [0, 0] [0] (by decide) (by norm_num) (by norm_num)
    (by norm_num)

end CDP
